import Mathlib

/-!
A shallow embedding of `src/src/FFmpegWriter.cpp` (libopenshot's FFmpegWriter)
with proofs about its option store, capability negotiation, audio
accumulator, packet emission and frame-range loop.

C `int` values are modelled as `Int` (no arithmetic in the modelled paths
comes near the 32-bit boundary), sample buffers as `List Int` of 16-bit
sample values, and the possibly non-terminating accumulator drain loop as a
fuel-indexed function returning `Option` (`none` = the loop did not finish
within the given fuel; for positive chunk sizes the fuel bound
`input.length + 1` is proved sufficient).
-/

namespace OpenShot

/-- Rational number as openshot::Fraction: a pair of C `int` fields. -/
structure Fraction where
  num : Int
  den : Int
deriving Repr, DecidableEq

/-- Modelled from the spec: `Fraction::Reduce` lives outside the provided
source (only FFmpegWriter.cpp is in src/). Per the spec it performs exact
integer GCD reduction, preserving the represented value, with denominator
kept positive for valid inputs. -/
def Fraction.Reduce (f : Fraction) : Fraction :=
  let g : Nat := Int.gcd f.num f.den
  if g = 0 then f else Fraction.mk (f.num / (g : Int)) (f.den / (g : Int))

/-- The exception kinds thrown by FFmpegWriter.cpp (the spec renames
`InvalidSampleRate` to `UnsupportedSampleRate` and `InvalidChannels` to
`UnsupportedChannelLayout`). -/
inductive WriterError where
  | InvalidFile
  | InvalidFormat
  | InvalidCodec
  | InvalidOptions
  | OutOfMemory
  | InvalidSampleRate
  | InvalidChannels
  | ResampleError
  | ErrorEncodingAudio
  | ErrorEncodingVideo
deriving Repr, DecidableEq

/-- An AVCodec as far as the writer consults it for the option store:
its canonical name and its numeric id. -/
structure Codec where
  name : String
  id : Int
deriving Repr, DecidableEq

/-- The writer's mutable option/format state: the `info` fields FFmpegWriter
reads and writes, plus the two `fmt->*_codec` ids it updates
(`CODEC_ID_NONE` is id 0). -/
structure WriterState where
  has_audio : Bool
  has_video : Bool
  vcodec : String
  acodec : String
  fps : Fraction
  video_timebase : Fraction
  width : Int
  height : Int
  pixel_ratio : Fraction
  display_ratio : Fraction
  video_bit_rate : Int
  interlaced_frame : Bool
  top_field_first : Bool
  sample_rate : Int
  channels : Int
  audio_bit_rate : Int
  fmt_video_codec : Int
  fmt_audio_codec : Int
deriving Repr, DecidableEq

/-- Codec-name lookup block at the top of FFmpegWriter::SetVideoOptions
(lines 96-108): an empty name is skipped; an unknown name throws
InvalidCodec; otherwise `info.vcodec` and `fmt->video_codec` are updated.
`find` stands for avcodec_find_encoder_by_name. -/
def setVideoCodec (find : String → Option Codec) (st : WriterState) (codec : String) : Except WriterError WriterState :=
  if codec.length > 0 then
    match find codec with
    | none => Except.error WriterError.InvalidCodec
    | some c => Except.ok { st with vcodec := c.name, fmt_video_codec := c.id }
  else Except.ok st

/-- The field-merging tail of FFmpegWriter::SetVideoOptions (lines 109-145):
the source's sequence of guarded assignments to pairwise-distinct fields,
written here as one per-field update (`fps.num > 0`, `width >= 1`,
`height >= 1`, `pixel_ratio.num > 0`, `bit_rate >= 1000` guard the merges),
then the unconditional interlace assignments, the display-aspect-ratio
recomputation from the merged width/height/pixel ratio, and the
unconditional `has_video` assignment. -/
def mergeVideoOptions (st : WriterState) (has_video : Bool) (fps : Fraction) (width height : Int) (pixel_ratio : Fraction) (interlaced top_field_first : Bool) (bit_rate : Int) : WriterState :=
  let width' := if width ≥ 1 then width else st.width
  let height' := if height ≥ 1 then height else st.height
  let pixel_ratio' := if pixel_ratio.num > 0 then pixel_ratio else st.pixel_ratio
  let size := Fraction.Reduce (Fraction.mk (width' * pixel_ratio'.num) (height' * pixel_ratio'.den))
  { st with
    fps := if fps.num > 0 then fps else st.fps,
    video_timebase := if fps.num > 0 then Fraction.mk fps.den fps.num else st.video_timebase,
    width := width',
    height := height',
    pixel_ratio := pixel_ratio',
    video_bit_rate := if bit_rate ≥ 1000 then bit_rate else st.video_bit_rate,
    interlaced_frame := interlaced,
    top_field_first := top_field_first,
    display_ratio := size,
    has_video := has_video }

/-- FFmpegWriter::SetVideoOptions (lines 92-146): codec lookup (which can
throw) followed by the pure merge. -/
def SetVideoOptions (find : String → Option Codec) (st : WriterState) (has_video : Bool) (codec : String) (fps : Fraction) (width height : Int) (pixel_ratio : Fraction) (interlaced top_field_first : Bool) (bit_rate : Int) : Except WriterError WriterState :=
  (setVideoCodec find st codec).map (fun st1 => mergeVideoOptions st1 has_video fps width height pixel_ratio interlaced top_field_first bit_rate)

/-- Codec-name lookup block of FFmpegWriter::SetAudioOptions (lines 152-165). -/
def setAudioCodec (find : String → Option Codec) (st : WriterState) (codec : String) : Except WriterError WriterState :=
  if codec.length > 0 then
    match find codec with
    | none => Except.error WriterError.InvalidCodec
    | some c => Except.ok { st with acodec := c.name, fmt_audio_codec := c.id }
  else Except.ok st

/-- The field-merging tail of FFmpegWriter::SetAudioOptions (lines 166-174):
`sample_rate > 7999`, `channels > 0` and `bit_rate > 999` guard the merges,
and `has_audio` is assigned unconditionally. -/
def mergeAudioOptions (st : WriterState) (has_audio : Bool) (sample_rate channels bit_rate : Int) : WriterState :=
  { st with
    sample_rate := if sample_rate > 7999 then sample_rate else st.sample_rate,
    channels := if channels > 0 then channels else st.channels,
    audio_bit_rate := if bit_rate > 999 then bit_rate else st.audio_bit_rate,
    has_audio := has_audio }

/-- FFmpegWriter::SetAudioOptions (lines 149-175). -/
def SetAudioOptions (find : String → Option Codec) (st : WriterState) (has_audio : Bool) (codec : String) (sample_rate channels bit_rate : Int) : Except WriterError WriterState :=
  (setAudioCodec find st codec).map (fun st1 => mergeAudioOptions st1 has_audio sample_rate channels bit_rate)

/-- The Stream_Type selector passed to FFmpegWriter::SetOption. -/
inductive StreamTy where
  | VIDEO_STREAM
  | AUDIO_STREAM
deriving Repr, DecidableEq

/-- Outcome of one FFmpegWriter::SetOption call: a write to a named codec
context field, a write to the codec's private options, a thrown
InvalidOptions, or a dereference of a NULL pointer (undefined behavior in
the C source). -/
inductive OptionOutcome where
  | setSpecial (field : String)
  | setPrivate
  | nullDeref
  | err (e : WriterError)
deriving Repr, DecidableEq

/-- Membership of the option name in the five specially-handled names of
SetOption (line 198). -/
def isSpecialOption (nm : String) : Bool :=
  nm = "g" || nm = "qmin" || nm = "qmax" || nm = "max_b_frames" || nm = "mb_decision"

/-- Body of FFmpegWriter::SetOption after the codec-context selection
(lines 189-227). `c = none` models a NULL AVCodecContext pointer; `findOpt`
stands for av_find_opt on the context's private options (consulted only when
a context was selected). When `c` is NULL and the name is one of the five
special names, the source writes through the NULL pointer
(`convert >> c->gop_size` etc.): modelled as `nullDeref`. When `c` is NULL
and the name is not special, `av_find_opt` is never called, so the final
else-branch throws InvalidOptions. -/
def setOptionBody (c : Option Unit) (nm : String) (findOpt : String → Bool) : OptionOutcome :=
  let opt : Bool := c.isSome && findOpt nm
  if opt || isSpecialOption nm then
    match c with
    | none => OptionOutcome.nullDeref
    | some _ => if isSpecialOption nm then OptionOutcome.setSpecial nm else OptionOutcome.setPrivate
  else OptionOutcome.err WriterError.InvalidOptions

/-- Codec-context selection of SetOption (lines 181-187): `c` is set from
`video_st->codec` or `audio_st->codec` only when the matching media kind is
enabled; a NULL stream pointer there is itself a NULL dereference. -/
def SetOption (has_video has_audio video_st audio_st : Bool) (stream : StreamTy) (nm : String) (findOpt : String → Bool) : OptionOutcome :=
  if has_video && stream = StreamTy.VIDEO_STREAM then
    if video_st then setOptionBody (some ()) nm findOpt else OptionOutcome.nullDeref
  else if has_audio && stream = StreamTy.AUDIO_STREAM then
    if audio_st then setOptionBody (some ()) nm findOpt else OptionOutcome.nullDeref
  else setOptionBody none nm findOpt

/-- The sample-rate scan of FFmpegWriter::add_audio_stream (lines 380-390):
walk the codec's supported_samplerates until the 0 sentinel; on a match set
`c->sample_rate` to the requested rate, on reaching the sentinel throw
InvalidSampleRate. The Lean list holds the entries before the sentinel. -/
def sampleRateScan : List Int → Int → Except WriterError Int
  | [], _ => Except.error WriterError.InvalidSampleRate
  | r :: rest, rate => if rate = r then Except.ok rate else sampleRateScan rest rate

/-- Sample-rate negotiation of add_audio_stream (lines 379-393): a codec
with no supported_samplerates list (`none`) gets the requested rate
verbatim; otherwise the scan decides. Returns the value stored in
`c->sample_rate`. -/
def setSampleRate (supported : Option (List Int)) (rate : Int) : Except WriterError Int :=
  match supported with
  | some rates => sampleRateScan rates rate
  | none => Except.ok rate

/-- Result of FFmpegWriter::initialize_streams (lines 77-89): whether each
stream pointer is non-NULL afterwards, and how many streams
avformat_new_stream appended to the container. `fmt_video_codec = 0` is
CODEC_ID_NONE. -/
structure StreamsState where
  video_st : Bool
  audio_st : Bool
  nb_streams : Nat
deriving Repr, DecidableEq

/-- FFmpegWriter::initialize_streams (lines 77-89): both pointers are reset
to NULL, then a video stream is added iff `fmt->video_codec` is not
CODEC_ID_NONE and video is enabled, and an audio stream likewise. -/
def initialize_streams (fmt_video_codec fmt_audio_codec : Int) (has_video has_audio : Bool) : StreamsState :=
  let v : Bool := fmt_video_codec ≠ 0 && has_video
  let a : Bool := fmt_audio_codec ≠ 0 && has_audio
  StreamsState.mk v a ((if v then 1 else 0) + (if a then 1 else 0))

/-- Stream kind tag of an emitted packet. -/
inductive StreamKind where
  | video
  | audio
deriving Repr, DecidableEq

/-- Observable effects of the packet-writing paths of FFmpegWriter. -/
inductive Effect where
  | allocAVFrame
  | pixelConvert
  | encodeVideo
  | encodeAudio
  | emitPacket (stream : StreamKind) (keyFlag : Bool)
deriving Repr, DecidableEq

/-- Effect trace of FFmpegWriter::write_video_packet (lines 702-805):
allocate the source and final AVFrames, convert/scale pixels via
sws_scale, then either write the raw picture as an always-key packet
(AVFMT_RAWPICTURE containers) or encode; an encoded packet is emitted only
when the encoder reports a positive size, key-flagged iff
`c->coded_frame->key_frame` is set. -/
def write_video_packet (rawPicture : Bool) (encodedSize : Int) (codedKeyFrame : Bool) : List Effect :=
  [Effect.allocAVFrame, Effect.allocAVFrame, Effect.pixelConvert] ++
    (if rawPicture then
      [Effect.emitPacket StreamKind.video true]
    else
      Effect.encodeVideo ::
        (if encodedSize > 0 then [Effect.emitPacket StreamKind.video codedKeyFrame] else []))

/-- Guard structure of the single-frame FFmpegWriter::WriteFrame (lines
264-272): the video path runs only when video is enabled and `video_st` is
non-NULL, the audio path only when audio is enabled and `audio_st` is
non-NULL. `audioEffects` is the trace of write_audio_packet for this frame. -/
def WriteFrame (has_video has_audio : Bool) (streams : StreamsState) (rawPicture : Bool) (encodedSize : Int) (codedKeyFrame : Bool) (audioEffects : List Effect) : List Effect :=
  (if has_video && streams.video_st then write_video_packet rawPicture encodedSize codedKeyFrame else []) ++
    (if has_audio && streams.audio_st then audioEffects else [])

/-- The accumulator drain loop of FFmpegWriter::write_audio_packet (lines
618-670), one iteration per recursion step. `acc` is the prefix of the
`samples` buffer filled so far (its length is `audio_input_position`),
`input` the samples of the incoming frame not yet consumed
(`remaining_frame_samples` of them, starting at `samples_position`), and
`frameSize` is `audio_input_frame_size`. Each iteration copies
`diff = min remaining (frameSize - position)` samples into the buffer;
if the buffer is still short the loop breaks, otherwise it encodes the
full buffer as one chunk, resets the position to 0 and continues. The
C loop has no other exit, so a zero `frameSize` loops forever; the fuel
argument makes that observable as `none`. -/
def drainLoop (frameSize : Nat) : Nat → List Int → List Int → Option (List (List Int) × List Int)
  | 0, _, _ => none
  | _ + 1, acc, [] => some ([], acc)
  | fuel + 1, acc, x :: xs =>
    let input := x :: xs
    let diff := min input.length (frameSize - acc.length)
    let acc' := acc ++ input.take diff
    if acc'.length < frameSize then
      some ([], acc')
    else
      match drainLoop frameSize fuel [] (input.drop diff) with
      | none => none
      | some (chunks, accFin) => some (acc' :: chunks, accFin)

/-- One call of write_audio_packet per frame, with the accumulator carried
across calls: each call runs the drain loop on that frame's samples with
fuel `samples + 1` (proved sufficient below for positive chunk sizes).
Returns all encoded chunks in order and the final accumulator contents. -/
def writeAudioFrames (frameSize : Nat) (acc : List Int) : List (List Int) → Option (List (List Int) × List Int)
  | [] => some ([], acc)
  | f :: rest =>
    match drainLoop frameSize (f.length + 1) acc f with
    | none => none
    | some (chunks, acc') =>
      match writeAudioFrames frameSize acc' rest with
      | none => none
      | some (chunks', accFin) => some (chunks ++ chunks', accFin)

/-- Packet emission of the audio drain loop: every encoded chunk becomes
one packet with `pkt.flags |= AV_PKT_FLAG_KEY` set unconditionally
(lines 644-666). -/
def write_audio_packets (frameSize : Nat) (acc : List Int) (frames : List (List Int)) : Option (List Effect) :=
  match writeAudioFrames frameSize acc frames with
  | none => none
  | some (chunks, _) => some (chunks.map fun _ => Effect.emitPacket StreamKind.audio true)

/-- The old-FFmpeg AVSampleFormat values this code can meet. -/
inductive SampleFmt where
  | u8
  | s16
  | s32
  | flt
  | dbl
deriving Repr, DecidableEq

/-- av_get_bytes_per_sample of the FFmpeg library. -/
def av_get_bytes_per_sample : SampleFmt → Nat
  | SampleFmt.u8 => 1
  | SampleFmt.s16 => 2
  | SampleFmt.s32 => 4
  | SampleFmt.flt => 4
  | SampleFmt.dbl => 8

/-- The resampling adjustment of write_audio_packet (lines 588-616): when
the encoder's sample format is not S16 or its channel count differs from
the frame's, both the total sample count and `audio_input_frame_size` are
rescaled by the integer-division byte-width ratio
`bytes_per_sample(fmt) / bytes_per_sample(S16)`; otherwise both are kept.
Returns (total samples, chunk size) after the conversion block. -/
def resampleAdjust (sample_fmt : SampleFmt) (info_channels channels_in_frame : Int) (initial_frame_size total_samples frame_size : Nat) : Nat × Nat :=
  if sample_fmt ≠ SampleFmt.s16 || info_channels ≠ channels_in_frame then
    let ratio := av_get_bytes_per_sample sample_fmt / av_get_bytes_per_sample SampleFmt.s16
    (total_samples * ratio, initial_frame_size * ratio)
  else
    (total_samples, frame_size)

/-- The loop of the range overload FFmpegWriter::WriteFrame(reader, start,
length) (lines 275-286): `for (number = start; number <= length; number++)`
calling GetFrame(number) on each iteration. Returns the frame indices
pulled from the reader, in order. -/
def writeFrameRange (start length : Int) : List Int :=
  if start > length then [] else start :: writeFrameRange (start + 1) length
termination_by (length + 1 - start).toNat
decreasing_by
  simp_wf
  omega

/-- A concrete, fully populated option store used to instantiate theorems
at specific inputs. -/
def sampleState : WriterState :=
  { has_audio := true, has_video := true, vcodec := "mpeg4", acodec := "aac",
    fps := Fraction.mk 30 1, video_timebase := Fraction.mk 1 30, width := 640, height := 480,
    pixel_ratio := Fraction.mk 1 1, display_ratio := Fraction.mk 4 3, video_bit_rate := 15000000,
    interlaced_frame := true, top_field_first := true, sample_rate := 44100,
    channels := 2, audio_bit_rate := 192000, fmt_video_codec := 13, fmt_audio_codec := 86018 }

/-- Unfolding an Except.map that produced a success. -/
theorem except_map_ok {α β γ : Type} (e : Except α β) (f : β → γ) (y : γ)
    (h : e.map f = Except.ok y) : ∃ x, e = Except.ok x ∧ y = f x := by
  cases e with
  | error a => simp [Except.map] at h
  | ok x => exact ⟨x, rfl, by simpa [Except.map] using h.symm⟩

/-- With fuel exceeding the incoming sample count, the drain loop
terminates and satisfies conservation: the emitted chunks followed by the
final accumulator hold exactly the old accumulator followed by the input,
every chunk is exactly `frameSize` samples, and the final fill stays below
`frameSize`. -/
theorem drainLoop_sound (frameSize : Nat) (hfs : 0 < frameSize) :
    ∀ (fuel : Nat) (acc input : List Int), acc.length < frameSize → input.length < fuel →
      ∃ chunks accFin, drainLoop frameSize fuel acc input = some (chunks, accFin) ∧
        chunks.flatten ++ accFin = acc ++ input ∧
        (∀ c ∈ chunks, c.length = frameSize) ∧
        accFin.length < frameSize := by
  intro fuel
  induction fuel with
  | zero => intro acc input _ h; omega
  | succ n ih =>
    intro acc input hacc hlen
    match input with
    | [] => exact ⟨[], acc, rfl, by simp, by simp, hacc⟩
    | x :: xs =>
      simp only [drainLoop]
      by_cases hlt : (acc ++ (x :: xs).take (min (x :: xs).length (frameSize - acc.length))).length < frameSize
      · rw [if_pos hlt]
        have hdiff : min (x :: xs).length (frameSize - acc.length) = (x :: xs).length := by
          simp only [List.length_append, List.length_take] at hlt
          omega
        rw [hdiff, List.take_length]
        exact ⟨[], acc ++ (x :: xs), rfl, by simp, by simp, by rw [hdiff, List.take_length] at hlt; exact hlt⟩
      · rw [if_neg hlt]
        have hxs : (x :: xs).length = xs.length + 1 := by simp
        have hdiffpos : 1 ≤ min (x :: xs).length (frameSize - acc.length) := by
          simp only [hxs]
          omega
        have hdrop : ((x :: xs).drop (min (x :: xs).length (frameSize - acc.length))).length < n := by
          simp only [List.length_drop, hxs]
          omega
        obtain ⟨chunks, accFin, heq, hjoin, hsize, hfin⟩ := ih [] ((x :: xs).drop (min (x :: xs).length (frameSize - acc.length))) (by simpa using hfs) hdrop
        rw [heq]
        refine ⟨(acc ++ (x :: xs).take (min (x :: xs).length (frameSize - acc.length))) :: chunks, accFin, rfl, ?_, ?_, hfin⟩
        · simp only [List.flatten_cons, List.append_assoc, List.nil_append] at hjoin ⊢
          rw [hjoin, List.take_append_drop]
        · intro c hc
          rcases List.mem_cons.mp hc with hc | hc
          · subst hc
            simp only [List.length_append, List.length_take] at hlt ⊢
            omega
          · exact hsize c hc

/-- The conservation property lifted over a whole sequence of
write_audio_packet calls, with the accumulator carried between calls. -/
theorem writeAudioFrames_sound (frameSize : Nat) (hfs : 0 < frameSize) :
    ∀ (frames : List (List Int)) (acc : List Int), acc.length < frameSize →
      ∃ chunks accFin, writeAudioFrames frameSize acc frames = some (chunks, accFin) ∧
        chunks.flatten ++ accFin = acc ++ frames.flatten ∧
        (∀ c ∈ chunks, c.length = frameSize) ∧
        accFin.length < frameSize := by
  intro frames
  induction frames with
  | nil => intro acc hacc; exact ⟨[], acc, rfl, by simp, by simp, hacc⟩
  | cons f rest ih =>
    intro acc hacc
    obtain ⟨chunks, acc', heq, hjoin, hsize, hmid⟩ :=
      drainLoop_sound frameSize hfs (f.length + 1) acc f hacc (by omega)
    obtain ⟨chunks', accFin, heq', hjoin', hsize', hfin⟩ := ih acc' hmid
    refine ⟨chunks ++ chunks', accFin, ?_, ?_, ?_, hfin⟩
    · simp only [writeAudioFrames, heq, heq']
    · simp only [List.flatten_append, List.flatten_cons, List.append_assoc]
      rw [hjoin', ← List.append_assoc, hjoin, List.append_assoc]
    · intro c hc
      rcases List.mem_append.mp hc with hc | hc
      · exact hsize c hc
      · exact hsize' c hc

/-- C1: for every sequence of audio frames with arbitrary per-frame sample
counts written via write_audio_packet, the samples delivered to the encoder
across all emitted chunks together with the genuine leftover carried in the
accumulator are exactly the samples submitted, in order — none lost, none
duplicated; every chunk passed to the encoder has exactly
audio_input_frame_size samples; and between calls (after every prefix of
the sequence, and at the end) audio_input_position is strictly less than
audio_input_frame_size. -/
theorem C1_audio_accumulator_conservation (frameSize : Nat) (frames : List (List Int))
    (hfs : 0 < frameSize) :
    ∃ chunks leftover,
      writeAudioFrames frameSize [] frames = some (chunks, leftover) ∧
      chunks.flatten ++ leftover = frames.flatten ∧
      (∀ c ∈ chunks, c.length = frameSize) ∧
      leftover.length < frameSize ∧
      (∀ pre suf : List (List Int), frames = pre ++ suf →
        ∃ chunksP leftP, writeAudioFrames frameSize [] pre = some (chunksP, leftP) ∧
          leftP.length < frameSize) := by
  obtain ⟨chunks, accFin, h1, h2, h3, h4⟩ :=
    writeAudioFrames_sound frameSize hfs frames [] (by simpa using hfs)
  refine ⟨chunks, accFin, h1, by simpa using h2, h3, h4, ?_⟩
  intro pre suf _
  obtain ⟨cP, lP, hp1, _, _, hp4⟩ :=
    writeAudioFrames_sound frameSize hfs pre [] (by simpa using hfs)
  exact ⟨cP, lP, hp1, hp4⟩

/-- Witness for C1 at chunk size 4 and frames of 3 and 6 samples. -/
theorem C1_audio_accumulator_conservation_witness :
    0 < 4 ∧
    ∃ chunks leftover,
      writeAudioFrames 4 [] [[1, 2, 3], [4, 5, 6, 7, 8, 9]] = some (chunks, leftover) ∧
      chunks.flatten ++ leftover = [[1, 2, 3], [4, 5, 6, 7, 8, 9]].flatten ∧
      (∀ c ∈ chunks, c.length = 4) ∧
      leftover.length < 4 ∧
      (∀ pre suf : List (List Int), [[1, 2, 3], [4, 5, 6, 7, 8, 9]] = pre ++ suf →
        ∃ chunksP leftP, writeAudioFrames 4 [] pre = some (chunksP, leftP) ∧
          leftP.length < 4) :=
  ⟨by decide, C1_audio_accumulator_conservation 4 [[1, 2, 3], [4, 5, 6, 7, 8, 9]] (by decide)⟩

/-- C2: for a codec with a supported-sample-rate list, a requested rate not
in the list makes add_audio_stream throw InvalidSampleRate (the spec's
UnsupportedSampleRate); a successful negotiation never stores any rate
other than the requested one; and a codec with no restriction list gets
the requested rate verbatim. -/
theorem C2_sample_rate_exact_or_error :
    (∀ (rates : List Int) (rate : Int), rates ≠ [] → rate ∉ rates →
      setSampleRate (some rates) rate = Except.error WriterError.InvalidSampleRate) ∧
    (∀ (supported : Option (List Int)) (rate r : Int),
      setSampleRate supported rate = Except.ok r → r = rate) ∧
    (∀ rate : Int, setSampleRate none rate = Except.ok rate) := by
  refine ⟨?_, ?_, fun rate => rfl⟩
  · intro rates
    induction rates with
    | nil => intro rate h _; exact absurd rfl h
    | cons r rest ih =>
      intro rate _ hmem
      have hne : rate ≠ r := fun h => hmem (h ▸ List.mem_cons_self r rest)
      show sampleRateScan (r :: rest) rate = Except.error WriterError.InvalidSampleRate
      rw [sampleRateScan, if_neg hne]
      rcases rest with _ | ⟨r2, rest2⟩
      · rfl
      · exact ih rate (by simp) (fun h => hmem (List.mem_cons_of_mem r h))
  · intro supported rate r h
    match supported with
    | none => simpa [setSampleRate] using h.symm
    | some rates =>
      induction rates with
      | nil => simp [setSampleRate, sampleRateScan] at h
      | cons r0 rest ih =>
        by_cases he : rate = r0
        · simp only [setSampleRate, sampleRateScan, if_pos he] at h
          exact congrArg id (by injection h with h; omega)
        · simp only [setSampleRate, sampleRateScan, if_neg he] at h
          exact ih h

/-- Witness for C2: rate 22050 against a codec permitting 44100/48000
fails with InvalidSampleRate, an unrestricted codec stores 12345 verbatim,
and a negotiated rate equals the request. -/
theorem C2_sample_rate_exact_or_error_witness :
    setSampleRate (some [44100, 48000]) 22050 = Except.error WriterError.InvalidSampleRate ∧
    setSampleRate none 12345 = Except.ok 12345 :=
  ⟨C2_sample_rate_exact_or_error.1 [44100, 48000] 22050 (by decide) (by decide),
   C2_sample_rate_exact_or_error.2.2 12345⟩

/-- C9: the range overload WriteFrame(reader, start, length) pulls from the
reader exactly the frames at indices start through length inclusive, in
order: the third parameter is an inclusive end index, not a count, so the
number of frames written is length - start + 1 and zero when
length < start. -/
theorem C9_write_frame_range_inclusive (start length : Int) :
    writeFrameRange start length =
      List.map (fun i : Nat => start + (i : Int)) (List.range (length + 1 - start).toNat) ∧
    (writeFrameRange start length).length = (length + 1 - start).toNat ∧
    (∀ n : Int, n ∈ writeFrameRange start length ↔ start ≤ n ∧ n ≤ length) := by
  have main : ∀ (k : Nat) (s l : Int), (l + 1 - s).toNat = k →
      writeFrameRange s l = List.map (fun i : Nat => s + (i : Int)) (List.range k) := by
    intro k
    induction k with
    | zero =>
      intro s l hk
      rw [writeFrameRange, if_pos (by omega)]
      simp
    | succ m ih =>
      intro s l hk
      rw [writeFrameRange, if_neg (by omega)]
      rw [ih (s + 1) l (by omega)]
      rw [List.range_succ_eq_map]
      simp only [List.map_cons, List.map_map, Nat.cast_zero, add_zero, List.cons.injEq, true_and]
      apply List.map_congr_left
      intro i _
      simp only [Function.comp_apply]
      push_cast
      ring
  have h1 := main ((length + 1 - start).toNat) start length rfl
  refine ⟨h1, ?_, ?_⟩
  · rw [h1]; simp
  · intro n
    rw [h1]
    simp only [List.mem_map, List.mem_range]
    constructor
    · rintro ⟨i, hi, rfl⟩; omega
    · intro hn
      refine ⟨(n - start).toNat, by omega, by omega⟩

/-- C10: on every successful SetAudioOptions call (any codec, any mix of
argument values), each threshold acts independently: a supplied sample rate
below 8000 (not only zero) leaves the stored sample rate unchanged, a
channel count below 1 leaves the stored channel count unchanged, an audio
bit rate below 1000 leaves the stored bit rate unchanged, and the
audio-enabled flag is always overwritten with the call's argument. -/
theorem C10_audio_option_thresholds (find : String → Option Codec) (st st' : WriterState)
    (has_audio : Bool) (codec : String) (sample_rate channels bit_rate : Int)
    (hok : SetAudioOptions find st has_audio codec sample_rate channels bit_rate =
      Except.ok st') :
    (sample_rate < 8000 → st'.sample_rate = st.sample_rate) ∧
    (channels < 1 → st'.channels = st.channels) ∧
    (bit_rate < 1000 → st'.audio_bit_rate = st.audio_bit_rate) ∧
    st'.has_audio = has_audio := by
  obtain ⟨st1, hst1, hst'⟩ := except_map_ok _ _ _ hok
  have hpres : st1.sample_rate = st.sample_rate ∧ st1.channels = st.channels ∧
      st1.audio_bit_rate = st.audio_bit_rate := by
    by_cases hc : codec.length > 0
    · simp only [setAudioCodec, if_pos hc] at hst1
      match hfind : find codec with
      | none => rw [hfind] at hst1; exact absurd hst1 (by simp)
      | some c =>
        rw [hfind] at hst1
        obtain rfl : ({ st with acodec := c.name, fmt_audio_codec := c.id } : WriterState) = st1 := by
          simpa using hst1
        exact ⟨rfl, rfl, rfl⟩
    · simp only [setAudioCodec, if_neg hc] at hst1
      obtain rfl : st = st1 := by simpa using hst1
      exact ⟨rfl, rfl, rfl⟩
  subst hst'
  refine ⟨?_, ?_, ?_, rfl⟩
  · intro hsr
    show (if sample_rate > 7999 then sample_rate else st1.sample_rate) = st.sample_rate
    rw [if_neg (by omega : ¬ sample_rate > 7999)]
    exact hpres.1
  · intro hch
    show (if channels > 0 then channels else st1.channels) = st.channels
    rw [if_neg (by omega : ¬ channels > 0)]
    exact hpres.2.1
  · intro hbr
    show (if bit_rate > 999 then bit_rate else st1.audio_bit_rate) = st.audio_bit_rate
    rw [if_neg (by omega : ¬ bit_rate > 999)]
    exact hpres.2.2

/-- Witness for C10 at a call with only the sample rate sub-threshold
(7000) while channels (2) and bit rate (128000) are normally supplied: the
stored sample rate is kept and the enabled flag is overwritten. -/
theorem C10_audio_option_thresholds_witness :
    ((7000 : Int) < 8000 →
      ({ sampleState with audio_bit_rate := 128000 } : WriterState).sample_rate =
        sampleState.sample_rate) ∧
    ((2 : Int) < 1 →
      ({ sampleState with audio_bit_rate := 128000 } : WriterState).channels =
        sampleState.channels) ∧
    ((128000 : Int) < 1000 →
      ({ sampleState with audio_bit_rate := 128000 } : WriterState).audio_bit_rate =
        sampleState.audio_bit_rate) ∧
    ({ sampleState with audio_bit_rate := 128000 } : WriterState).has_audio = true :=
  C10_audio_option_thresholds (fun _ => none) sampleState
    { sampleState with audio_bit_rate := 128000 } true "" 7000 2 128000 (by rfl)

/-- C3 counterexample: SetOption on a stream whose media kind is disabled
is not a silent no-op. With both kinds disabled, an ordinary option name
addressed to the video stream throws InvalidOptions, and one of the five
specially-handled names dereferences the NULL codec context. -/
theorem C3_counterexample :
    SetOption false false false false StreamTy.VIDEO_STREAM "profile" (fun _ => false) =
      OptionOutcome.err WriterError.InvalidOptions ∧
    SetOption false true false true StreamTy.VIDEO_STREAM "g" (fun _ => false) =
      OptionOutcome.nullDeref := by
  constructor <;> rfl

/-- C3 amended: a SetOption call naming a stream whose media kind is
disabled never applies an option, but it is not a silent no-op: for the
five specially-handled names it dereferences the NULL codec context
(undefined behavior), and for every other name it throws InvalidOptions. -/
theorem C3_disabled_stream_not_noop (has_video has_audio video_st audio_st : Bool)
    (stream : StreamTy) (nm : String) (findOpt : String → Bool)
    (hdis : (stream = StreamTy.VIDEO_STREAM ∧ has_video = false) ∨
      (stream = StreamTy.AUDIO_STREAM ∧ has_audio = false)) :
    SetOption has_video has_audio video_st audio_st stream nm findOpt =
      (if isSpecialOption nm then OptionOutcome.nullDeref
       else OptionOutcome.err WriterError.InvalidOptions) := by
  have hbody : setOptionBody none nm findOpt =
      (if isSpecialOption nm then OptionOutcome.nullDeref
       else OptionOutcome.err WriterError.InvalidOptions) := by
    by_cases h : isSpecialOption nm <;> simp [setOptionBody, h]
  rcases hdis with ⟨hs, hv⟩ | ⟨hs, ha⟩ <;> subst hs <;> subst (by assumption : _ = false) <;>
    simp only [SetOption, Bool.false_and, Bool.and_false] <;>
    simp [hbody]

/-- Witness for the amended C3: the disabled-video special name "qmax"
dereferences NULL even though the audio side is fully enabled. -/
theorem C3_disabled_stream_not_noop_witness :
    SetOption false true true true StreamTy.VIDEO_STREAM "qmax" (fun _ => true) =
      OptionOutcome.nullDeref := by
  simpa using C3_disabled_stream_not_noop false true true true StreamTy.VIDEO_STREAM "qmax"
    (fun _ => true) (Or.inl ⟨rfl, rfl⟩)

/-- C4 counterexample: starting from a store with interlacing enabled and
video enabled, a SetVideoOptions call supplying only width (codec empty,
fps/pixel-ratio/bit-rate zero, height zero) does not leave the interlace
flags and the video-enabled flag unchanged: both are overwritten with the
call's arguments, here to false. Only width and display_ratio were expected
to change; interlaced_frame, top_field_first and has_video change too. -/
theorem C4_counterexample :
    SetVideoOptions (fun _ => none) sampleState false "" (Fraction.mk 0 1) 800 0
        (Fraction.mk 0 1) false false 0 =
      Except.ok { sampleState with
        width := 800,
        display_ratio := Fraction.mk 5 3,
        interlaced_frame := false,
        top_field_first := false,
        has_video := false } ∧
    sampleState.interlaced_frame = true ∧ sampleState.has_video = true := by
  constructor
  · rfl
  · exact ⟨rfl, rfl⟩

/-- C4 amended: a SetVideoOptions call supplying only width (codec empty,
fps/pixel-ratio/bit-rate unsupplied, height zero) leaves frame rate, time
base, height, pixel aspect ratio, video bit rate, both codec names and all
audio fields unchanged, stores the new width, and recomputes the display
aspect ratio from the new width and the previous height and pixel ratio;
the interlace flags and the video-enabled flag, however, are always
overwritten with the call's arguments. -/
theorem C4_width_only_merge (find : String → Option Codec) (st : WriterState)
    (has_video interlaced top_field_first : Bool) (fps pixel_ratio : Fraction)
    (width height bit_rate : Int)
    (hw : 1 ≤ width) (hh : height < 1) (hfps : fps.num ≤ 0) (hpr : pixel_ratio.num ≤ 0)
    (hbr : bit_rate < 1000) :
    SetVideoOptions find st has_video "" fps width height pixel_ratio interlaced
        top_field_first bit_rate =
      Except.ok { st with
        width := width,
        display_ratio := Fraction.Reduce
          (Fraction.mk (width * st.pixel_ratio.num) (st.height * st.pixel_ratio.den)),
        interlaced_frame := interlaced,
        top_field_first := top_field_first,
        has_video := has_video } := by
  have h0 : setVideoCodec find st "" = Except.ok st := by
    simp [setVideoCodec]
  have h1 : ¬ fps.num > 0 := by omega
  have h2 : width ≥ (1 : Int) := by omega
  have h3 : ¬ height ≥ (1 : Int) := by omega
  have h4 : ¬ pixel_ratio.num > 0 := by omega
  have h5 : ¬ bit_rate ≥ 1000 := by omega
  simp [SetVideoOptions, h0, Except.map, mergeVideoOptions, h1, h2, h3, h4, h5]

/-- Witness for the amended C4 at a concrete store and width 800. -/
theorem C4_width_only_merge_witness :
    SetVideoOptions (fun _ => none) sampleState false "" (Fraction.mk 0 1) 800 0
        (Fraction.mk 0 1) false false 0 =
      Except.ok { sampleState with
        width := 800,
        display_ratio := Fraction.Reduce
          (Fraction.mk (800 * sampleState.pixel_ratio.num)
            (sampleState.height * sampleState.pixel_ratio.den)),
        interlaced_frame := false,
        top_field_first := false,
        has_video := false } :=
  C4_width_only_merge (fun _ => none) sampleState false false false (Fraction.mk 0 1)
    (Fraction.mk 0 1) 800 0 0 (by decide) (by decide) (by decide) (by decide) (by decide)

/-- Properties of the GCD reduction on a fraction with positive numerator
and denominator: the represented value is preserved exactly (by cross
multiplication), the result is fully reduced, its denominator stays
positive, and reducing again changes nothing. -/
theorem Reduce_spec (a b : Int) (ha : 0 < a) (hb : 0 < b) :
    (Fraction.Reduce (Fraction.mk a b)).num * b = a * (Fraction.Reduce (Fraction.mk a b)).den ∧
    Int.gcd (Fraction.Reduce (Fraction.mk a b)).num (Fraction.Reduce (Fraction.mk a b)).den = 1 ∧
    0 < (Fraction.Reduce (Fraction.mk a b)).den ∧
    Fraction.Reduce (Fraction.Reduce (Fraction.mk a b)) = Fraction.Reduce (Fraction.mk a b) := by
  have hg : 0 < Int.gcd a b := by
    rw [Int.gcd_pos_iff]
    exact Or.inl ha.ne'
  set g : Int := (Int.gcd a b : Int) with hgdef
  have hgz : g ≠ 0 := by
    rw [hgdef]
    exact_mod_cast hg.ne'
  have hred : Fraction.Reduce (Fraction.mk a b) = Fraction.mk (a / g) (b / g) := by
    simp only [Fraction.Reduce]
    rw [if_neg hg.ne']
  obtain ⟨a1, ha1⟩ : g ∣ a := by
    rw [hgdef]
    exact Int.gcd_dvd_left
  obtain ⟨b1, hb1⟩ : g ∣ b := by
    rw [hgdef]
    exact Int.gcd_dvd_right
  have hda : a / g = a1 := by
    rw [ha1, Int.mul_ediv_cancel_left a1 hgz]
  have hdb : b / g = b1 := by
    rw [hb1, Int.mul_ediv_cancel_left b1 hgz]
  have hgcd1 : Int.gcd (a / g) (b / g) = 1 := by
    rw [hgdef]
    exact Int.gcd_div_gcd_div_gcd hg
  have hbpos : 0 < b / g := by
    rw [hdb]
    by_contra hc
    push_neg at hc
    have hgi : (0 : Int) < g := by
      rw [hgdef]
      exact_mod_cast hg
    nlinarith [hb1]
  refine ⟨?_, ?_, ?_, ?_⟩
  · rw [hred]
    show a / g * b = a * (b / g)
    rw [hda, hdb, ha1, hb1]
    ring
  · rw [hred]
    exact hgcd1
  · rw [hred]
    exact hbpos
  · rw [hred]
    show Fraction.Reduce (Fraction.mk (a / g) (b / g)) = Fraction.mk (a / g) (b / g)
    simp [Fraction.Reduce, hgcd1]

/-- Projection of the merge: when width, height and pixel ratio are all
supplied, the stored display aspect ratio is the reduction of their
product fraction. -/
theorem mergeVideoOptions_display_ratio (st : WriterState) (has_video interlaced top_field_first : Bool)
    (fps pixel_ratio : Fraction) (width height bit_rate : Int)
    (hw : 1 ≤ width) (hh : 1 ≤ height) (hn : 1 ≤ pixel_ratio.num) :
    (mergeVideoOptions st has_video fps width height pixel_ratio interlaced top_field_first bit_rate).display_ratio =
      Fraction.Reduce (Fraction.mk (width * pixel_ratio.num) (height * pixel_ratio.den)) := by
  simp only [mergeVideoOptions]
  rw [if_pos (by omega : width ≥ (1 : Int)), if_pos (by omega : height ≥ (1 : Int)),
    if_pos (by omega : pixel_ratio.num > 0)]

/-- C5: for valid width, height and pixel aspect ratio, the display aspect
ratio stored by SetVideoOptions is the fully GCD-reduced fraction
(width·pixelAspectNum)/(height·pixelAspectDen): it represents exactly that
value (integer cross multiplication), its numerator and denominator are
coprime, its denominator is positive, and reducing the stored ratio again
leaves it unchanged. -/
theorem C5_display_ratio_reduced_idempotent (find : String → Option Codec) (st st' : WriterState)
    (codec : String) (has_video interlaced top_field_first : Bool) (fps pixel_ratio : Fraction)
    (width height bit_rate : Int)
    (hw : 1 ≤ width) (hh : 1 ≤ height) (hn : 1 ≤ pixel_ratio.num) (hd : 1 ≤ pixel_ratio.den)
    (hok : SetVideoOptions find st has_video codec fps width height pixel_ratio interlaced
      top_field_first bit_rate = Except.ok st') :
    st'.display_ratio = Fraction.Reduce (Fraction.mk (width * pixel_ratio.num) (height * pixel_ratio.den)) ∧
    st'.display_ratio.num * (height * pixel_ratio.den) = (width * pixel_ratio.num) * st'.display_ratio.den ∧
    Int.gcd st'.display_ratio.num st'.display_ratio.den = 1 ∧
    0 < st'.display_ratio.den ∧
    Fraction.Reduce st'.display_ratio = st'.display_ratio := by
  obtain ⟨st1, _, hst'⟩ := except_map_ok _ _ _ hok
  have hdr : st'.display_ratio =
      Fraction.Reduce (Fraction.mk (width * pixel_ratio.num) (height * pixel_ratio.den)) := by
    rw [hst']
    exact mergeVideoOptions_display_ratio st1 has_video interlaced top_field_first fps
      pixel_ratio width height bit_rate hw hh hn
  have hapos : 0 < width * pixel_ratio.num := mul_pos (by omega) (by omega)
  have hbpos : 0 < height * pixel_ratio.den := mul_pos (by omega) (by omega)
  obtain ⟨r1, r2, r3, r4⟩ := Reduce_spec (width * pixel_ratio.num) (height * pixel_ratio.den) hapos hbpos
  exact ⟨hdr, by rw [hdr]; exact r1, by rw [hdr]; exact r2, by rw [hdr]; exact r3, by rw [hdr]; exact r4⟩

/-- Witness for C5: at 640x480 with square pixels the stored display ratio
is the reduced 4/3, coprime, positive and stable under re-reduction. -/
theorem C5_display_ratio_reduced_idempotent_witness :
    sampleState.display_ratio =
      Fraction.Reduce (Fraction.mk (640 * (Fraction.mk 1 1).num) (480 * (Fraction.mk 1 1).den)) ∧
    sampleState.display_ratio.num * (480 * (Fraction.mk 1 1).den) =
      (640 * (Fraction.mk 1 1).num) * sampleState.display_ratio.den ∧
    Int.gcd sampleState.display_ratio.num sampleState.display_ratio.den = 1 ∧
    0 < sampleState.display_ratio.den ∧
    Fraction.Reduce sampleState.display_ratio = sampleState.display_ratio :=
  C5_display_ratio_reduced_idempotent (fun _ => none) sampleState sampleState "" true true true
    (Fraction.mk 30 1) (Fraction.mk 1 1) 640 480 15000000
    (by decide) (by decide) (by decide) (by decide) (by rfl)

/-- C6: when only audio is enabled (with an audio codec selected in the
container format) and video is disabled, initialize_streams leaves video_st
NULL, sets audio_st, and creates exactly one stream; a subsequent
WriteFrame call runs only the audio path: its trace is exactly the audio
trace, the pixel converter is never reached, and every packet it emits is
an audio packet. -/
theorem C6_audio_only_no_video_work (fmt_video_codec fmt_audio_codec : Int)
    (hac : fmt_audio_codec ≠ 0)
    (rawPicture : Bool) (encodedSize : Int) (codedKeyFrame : Bool)
    (frameSize : Nat) (acc : List Int) (frames : List (List Int)) (audioEffects : List Effect)
    (heff : write_audio_packets frameSize acc frames = some audioEffects) :
    (initialize_streams fmt_video_codec fmt_audio_codec false true).video_st = false ∧
    (initialize_streams fmt_video_codec fmt_audio_codec false true).audio_st = true ∧
    (initialize_streams fmt_video_codec fmt_audio_codec false true).nb_streams = 1 ∧
    WriteFrame false true (initialize_streams fmt_video_codec fmt_audio_codec false true)
        rawPicture encodedSize codedKeyFrame audioEffects = audioEffects ∧
    Effect.pixelConvert ∉
      WriteFrame false true (initialize_streams fmt_video_codec fmt_audio_codec false true)
        rawPicture encodedSize codedKeyFrame audioEffects ∧
    (∀ s k, Effect.emitPacket s k ∈
      WriteFrame false true (initialize_streams fmt_video_codec fmt_audio_codec false true)
        rawPicture encodedSize codedKeyFrame audioEffects → s = StreamKind.audio) := by
  have hstreams : initialize_streams fmt_video_codec fmt_audio_codec false true =
      StreamsState.mk false true 1 := by
    simp [initialize_streams, hac]
  have hwf : WriteFrame false true (initialize_streams fmt_video_codec fmt_audio_codec false true)
      rawPicture encodedSize codedKeyFrame audioEffects = audioEffects := by
    rw [hstreams]
    simp [WriteFrame]
  have haudio : ∀ e ∈ audioEffects, e = Effect.emitPacket StreamKind.audio true := by
    intro e he
    rcases hw : writeAudioFrames frameSize acc frames with _ | ⟨chunks, leftover⟩
    · simp [write_audio_packets, hw] at heff
    · simp only [write_audio_packets, hw] at heff
      obtain rfl : chunks.map (fun _ => Effect.emitPacket StreamKind.audio true) = audioEffects := by
        simpa using heff
      obtain ⟨c, _, rfl⟩ := List.mem_map.mp he
      rfl
  refine ⟨by rw [hstreams], by rw [hstreams], by rw [hstreams], hwf, ?_, ?_⟩
  · rw [hwf]
    intro hmem
    exact absurd (haudio _ hmem) (by simp)
  · intro s k hmem
    rw [hwf] at hmem
    have hthis := haudio _ hmem
    rw [Effect.emitPacket.injEq] at hthis
    exact hthis.1

/-- Witness for C6 at a container with audio codec id 86018, one incoming
frame of three samples and chunk size two. -/
theorem C6_audio_only_no_video_work_witness :
    (initialize_streams 0 86018 false true).video_st = false ∧
    (initialize_streams 0 86018 false true).audio_st = true ∧
    (initialize_streams 0 86018 false true).nb_streams = 1 ∧
    WriteFrame false true (initialize_streams 0 86018 false true) false 1 true
      [Effect.emitPacket StreamKind.audio true] = [Effect.emitPacket StreamKind.audio true] ∧
    Effect.pixelConvert ∉
      WriteFrame false true (initialize_streams 0 86018 false true) false 1 true
        [Effect.emitPacket StreamKind.audio true] ∧
    (∀ s k, Effect.emitPacket s k ∈
      WriteFrame false true (initialize_streams 0 86018 false true) false 1 true
        [Effect.emitPacket StreamKind.audio true] → s = StreamKind.audio) :=
  C6_audio_only_no_video_work 0 86018 (by decide) false 1 true 2 [] [[5, 6, 7]]
    [Effect.emitPacket StreamKind.audio true] (by decide)

/-- C7: every packet emitted on the audio path carries the key-frame flag
set unconditionally, while a packet emitted on the video path carries the
flag exactly as the codec marked the coded frame — except in raw-picture
container mode, where the video packet is always key-flagged. -/
theorem C7_key_frame_flags (frameSize : Nat) (acc : List Int) (frames : List (List Int))
    (audioEffects : List Effect)
    (heff : write_audio_packets frameSize acc frames = some audioEffects) :
    (∀ s k, Effect.emitPacket s k ∈ audioEffects → s = StreamKind.audio ∧ k = true) ∧
    (∀ (encodedSize : Int) (codedKeyFrame k : Bool),
      (Effect.emitPacket StreamKind.video k ∈ write_video_packet false encodedSize codedKeyFrame →
        k = codedKeyFrame) ∧
      (encodedSize > 0 →
        Effect.emitPacket StreamKind.video codedKeyFrame ∈
          write_video_packet false encodedSize codedKeyFrame) ∧
      (Effect.emitPacket StreamKind.video k ∈ write_video_packet true encodedSize codedKeyFrame →
        k = true) ∧
      Effect.emitPacket StreamKind.video true ∈ write_video_packet true encodedSize codedKeyFrame) := by
  constructor
  · intro s k hmem
    rcases hw : writeAudioFrames frameSize acc frames with _ | ⟨chunks, leftover⟩
    · simp [write_audio_packets, hw] at heff
    · simp only [write_audio_packets, hw] at heff
      obtain rfl : chunks.map (fun _ => Effect.emitPacket StreamKind.audio true) = audioEffects := by
        simpa using heff
      obtain ⟨c, _, he⟩ := List.mem_map.mp hmem
      rw [Effect.emitPacket.injEq] at he
      exact ⟨he.1.symm, he.2.symm⟩
  · intro encodedSize codedKeyFrame k
    refine ⟨?_, ?_, ?_, ?_⟩
    · intro hmem
      by_cases hsz : encodedSize > 0
      · simp [write_video_packet, hsz] at hmem
        exact hmem
      · simp [write_video_packet, hsz] at hmem
    · intro hsz
      simp [write_video_packet, hsz]
    · intro hmem
      simpa [write_video_packet] using hmem
    · simp [write_video_packet]

/-- Witness for C7: one full chunk of two samples yields one key-flagged
audio packet, and the video facts at size 1. -/
theorem C7_key_frame_flags_witness :
    (∀ s k, Effect.emitPacket s k ∈ [Effect.emitPacket StreamKind.audio true] →
      s = StreamKind.audio ∧ k = true) ∧
    (∀ (encodedSize : Int) (codedKeyFrame k : Bool),
      (Effect.emitPacket StreamKind.video k ∈ write_video_packet false encodedSize codedKeyFrame →
        k = codedKeyFrame) ∧
      (encodedSize > 0 →
        Effect.emitPacket StreamKind.video codedKeyFrame ∈
          write_video_packet false encodedSize codedKeyFrame) ∧
      (Effect.emitPacket StreamKind.video k ∈ write_video_packet true encodedSize codedKeyFrame →
        k = true) ∧
      Effect.emitPacket StreamKind.video true ∈ write_video_packet true encodedSize codedKeyFrame) :=
  C7_key_frame_flags 2 [] [[3, 4]] [Effect.emitPacket StreamKind.audio true] (by decide)

/-- C8: whenever an incoming audio frame needs sample-format or channel
conversion, write_audio_packet recomputes the target chunk size as the
initial chunk size times the integer byte-width ratio between the
encoder's sample format and 16-bit signed samples; for the 8-bit format
that ratio truncates to zero, giving chunk size zero, which is not
rejected with any error — the drain loop then simply never terminates
(undefined behavior), observable here as `none` for every fuel. -/
theorem C8_chunk_size_byte_ratio (sample_fmt : SampleFmt) (info_channels channels_in_frame : Int)
    (initial_frame_size total_samples frame_size : Nat)
    (hconv : sample_fmt ≠ SampleFmt.s16 ∨ info_channels ≠ channels_in_frame) :
    (resampleAdjust sample_fmt info_channels channels_in_frame initial_frame_size total_samples
        frame_size).2 =
      initial_frame_size *
        (av_get_bytes_per_sample sample_fmt / av_get_bytes_per_sample SampleFmt.s16) ∧
    (resampleAdjust SampleFmt.u8 info_channels channels_in_frame initial_frame_size total_samples
        frame_size).2 = 0 ∧
    (∀ (fuel : Nat) (acc input : List Int), input ≠ [] → drainLoop 0 fuel acc input = none) := by
  have hzero : ∀ (fuel : Nat) (acc input : List Int), input ≠ [] →
      drainLoop 0 fuel acc input = none := by
    intro fuel
    induction fuel with
    | zero => intro acc input _; rfl
    | succ n ih =>
      intro acc input hne
      match input with
      | x :: xs =>
        simp only [drainLoop, List.length_cons, Nat.zero_sub, Nat.min_zero, List.take_zero,
          List.append_nil, List.drop_zero]
        rw [if_neg (by omega)]
        rw [ih [] (x :: xs) hne]
  refine ⟨?_, ?_, hzero⟩
  · rcases hconv with h | h
    · simp [resampleAdjust, h]
    · simp [resampleAdjust, h]
  · simp [resampleAdjust, av_get_bytes_per_sample]

/-- Witness for C8: converting to 32-bit samples doubles an initial chunk
size of 4000, converting to 8-bit samples zeroes it, and the zero-size
drain loop diverges on a one-sample input. -/
theorem C8_chunk_size_byte_ratio_witness :
    (resampleAdjust SampleFmt.s32 2 2 4000 100 4000).2 =
      4000 * (av_get_bytes_per_sample SampleFmt.s32 / av_get_bytes_per_sample SampleFmt.s16) ∧
    (resampleAdjust SampleFmt.u8 2 2 4000 100 4000).2 = 0 ∧
    (∀ (fuel : Nat) (acc input : List Int), input ≠ [] → drainLoop 0 fuel acc input = none) :=
  C8_chunk_size_byte_ratio SampleFmt.s32 2 2 4000 100 4000 (Or.inl (by decide))

end OpenShot
